import Mathlib

/-!
Shallow embedding of src/bot.py (a Steam friend-count monitor).

The script polls the Steam API for a fixed roster of account ids
(STEAM_ACCOUNTS), compares each account's friend count with the snapshot
persisted by the previous run, sends a Telegram message per detected change,
and rewrites the snapshot file.  External effects (HTTP fetch outcomes,
filesystem state, Telegram delivery outcomes) are passed in explicitly; the
script's own logic is translated function by function.
-/

/-! ## Python dict model

`previous` and `current` in bot.py are Python dicts with string keys.  We model
them as association lists in insertion order with unique keys: assignment
overwrites the entry in place when the key exists and appends otherwise, which
is exactly a Python dict's observable behaviour. -/

/-- `d.get(k)`: value of the first (and only) entry with key `k`. -/
def dictGet : List (String × Nat) → String → Option Nat
  | [], _ => none
  | p :: rest, k => if p.1 = k then some p.2 else dictGet rest k

/-- `d[k] = v`: overwrite in place when present, append otherwise. -/
def dictSet : List (String × Nat) → String → Nat → List (String × Nat)
  | [], k, v => [(k, v)]
  | p :: rest, k, v => if p.1 = k then (k, v) :: rest else p :: dictSet rest k v

/-- The keys of a dict, in insertion order. -/
def dictKeys (d : List (String × Nat)) : List String := d.map Prod.fst

/-! ## Account fetcher (src/bot.py lines 63-85) -/

/-- Outcome of the single HTTP GET issued by `fetch_friend_count`:
status 200 with a friends list of length `friendCount`, status 403 (private
profile), any other status, or an exception (timeout, network error,
malformed response). -/
inductive FetchOutcome where
  | ok (friendCount : Nat)
  | forbidden
  | apiError (status : Nat)
  | transportError (msg : String)
deriving DecidableEq

/-- `get_profile_link` (line 63). -/
def get_profile_link (steam_id : String) : String :=
  "steamcommunity.com/profiles/" ++ steam_id

/-- `fetch_friend_count` (lines 67-85) returns the tuple
`(steam_id, profile_link, count)`; `count` is the friends-list length on
status 200 and `None` on 403, any other status, or an exception. -/
def fetch_friend_count (steam_id : String) (o : FetchOutcome) :
    String × String × Option Nat :=
  match o with
  | .ok n => (steam_id, get_profile_link steam_id, some n)
  | .forbidden => (steam_id, get_profile_link steam_id, none)
  | .apiError _ => (steam_id, get_profile_link steam_id, none)
  | .transportError _ => (steam_id, get_profile_link steam_id, none)

/-- The count component of an outcome (`some` exactly on status 200). -/
def FetchOutcome.count : FetchOutcome → Option Nat
  | .ok n => some n
  | _ => none

/-! ## Diff loop (src/bot.py lines 160-175) -/

/-- One detected change: the loop sends one Telegram message and appends one
entry to `changes` per such event; an increase is the case
`prevCount < newCount`, a decrease the case `newCount < prevCount`. -/
structure ChangeEvent where
  accountId : String
  prevCount : Nat
  newCount : Nat
deriving DecidableEq, Repr

/-- The signed delta reported in the change message. -/
def ChangeEvent.delta (e : ChangeEvent) : Int :=
  (e.newCount : Int) - (e.prevCount : Int)

/-- The event (if any) the body of the results loop emits for one fetch result
`(steam_id, profile_link, count)`: `count` present, `previous.get(steam_id)`
present, not the first run, and the two counts differ (lines 161-175). -/
def changeFor (previous : List (String × Nat)) (first_run : Bool)
    (r : String × String × Option Nat) : Option ChangeEvent :=
  match r.2.2 with
  | none => none
  | some count =>
    match dictGet previous r.1 with
    | none => none
    | some prev_count =>
      if first_run then none
      else if prev_count < count then some ⟨r.1, prev_count, count⟩
      else if count < prev_count then some ⟨r.1, prev_count, count⟩
      else none

/-- The mutable state of the results loop: the `current` dict under
construction and the list of emitted change events (in emission order). -/
structure RunState where
  current : List (String × Nat)
  changes : List ChangeEvent
deriving DecidableEq, Repr

/-- One iteration of the results loop (lines 160-175): skip when `count` is
`None`, otherwise record `current[steam_id] = count` and emit the change
event, if any. -/
def processResult (previous : List (String × Nat)) (first_run : Bool)
    (st : RunState) (r : String × String × Option Nat) : RunState :=
  match r.2.2 with
  | none => st
  | some count =>
    let current := dictSet st.current r.1 count
    match changeFor previous first_run r with
    | some e => ⟨current, st.changes ++ [e]⟩
    | none => ⟨current, st.changes⟩

/-- `check_accounts` (lines 150-177) up to `save_counts`: every roster entry is
fetched (`asyncio.gather` returns results in task order, i.e. roster order,
one result per occurrence), then the results loop runs.  `api` gives the fetch
outcome per account id; the returned `.current` is the dict passed to
`save_counts` and `.changes` lists the emitted events in send order. -/
def check_accounts (roster : List String) (api : String → FetchOutcome)
    (previous : List (String × Nat)) (first_run : Bool) : RunState :=
  let results := roster.map (fun steam_id => fetch_friend_count steam_id (api steam_id))
  results.foldl (processResult previous first_run) ⟨[], []⟩


/-! ## Event classification -/

/-- An increase event for account `a` (a "New Friend Alert" message). -/
def isIncreaseFor (a : String) (e : ChangeEvent) : Bool :=
  e.accountId == a && decide (e.prevCount < e.newCount)

/-- A decrease event for account `a` (a "Friend Removed" message). -/
def isDecreaseFor (a : String) (e : ChangeEvent) : Bool :=
  e.accountId == a && decide (e.newCount < e.prevCount)

/-! ## First-run latch (src/bot.py lines 143-148) -/

/-- `is_first_run`: the persistent state is whether INIT_FILE exists.  The
call returns `(result, marker state after the call)`: when the marker exists
the call returns False and writes nothing; when it is absent the call writes
the marker and returns True. -/
def is_first_run (markerExists : Bool) : Bool × Bool :=
  if markerExists then (false, markerExists) else (true, true)

/-- The results of `n` successive `is_first_run` calls, threading the marker
state from call to call. -/
def runFirstRunCalls : Nat → Bool → List Bool
  | 0, _ => []
  | Nat.succ n, s => (is_first_run s).1 :: runFirstRunCalls n (is_first_run s).2

/-! ## Snapshot load (src/bot.py lines 132-137) -/

/-- A parsed JSON value: everything `json.load` can hand back. -/
inductive Json where
  | null
  | bool (b : Bool)
  | num (n : Int)
  | str (s : String)
  | arr (xs : List Json)
  | obj (fields : List (String × Json))

/-- How reading DATA_FILE can go: the file is missing (`open` raises), its
content is not valid JSON (`json.load` raises), or `json.load` succeeds with
some value. -/
inductive ReadOutcome where
  | missing
  | notJson
  | parsed (v : Json)

/-- `load_previous_counts`: the bare `except` turns any exception into `{}`;
a successfully parsed value is returned as is, whatever its shape. -/
def load_previous_counts : ReadOutcome → Json
  | .missing => .obj []
  | .notJson => .obj []
  | .parsed v => v

/-- A well-formed stored mapping: a JSON object whose values are all
non-negative integers (account id to friend count). -/
def isCountMapping : Json → Bool
  | .obj fields => fields.all (fun q => match q.2 with
      | .num n => decide (0 ≤ n)
      | _ => false)
  | _ => false

/-- Whether a read outcome delivered a well-formed stored mapping. -/
def ReadOutcome.wellFormed : ReadOutcome → Bool
  | .parsed v => isCountMapping v
  | _ => false

/-! ## Telegram delivery (src/bot.py lines 87-130) -/

/-- Outcome of the POST inside `_send_single_message`: an HTTP status code,
or an exception raised during the request. -/
inductive DeliveryOutcome where
  | status (code : Nat)
  | transportError (msg : String)
deriving DecidableEq

/-- `_send_single_message` (lines 114-130): the try/except catches every
exception; a non-200 status and a transport error are only logged.  The
`Except` codomain records whether the call raises past its caller (`.error`)
or returns normally (`.ok` with the log line it wrote). -/
def send_single_message (_message : String) (outcome : DeliveryOutcome) :
    Except String String :=
  match outcome with
  | .status code =>
      if code != 200 then .ok "Failed to send message"
      else .ok "Telegram message sent successfully"
  | .transportError e => .ok ("Telegram error: " ++ e)

/-! ## Message chunking (src/bot.py lines 87-112)

Python strings are modelled as `List Char`.  `str.strip()` with no argument
removes the characters for which `str.isspace()` holds from both ends;
`isPySpace` is exactly that class: the code points 09-0D, 1C-20, 85, A0,
1680, 2000-200A, 2028-2029, 202F, 205F and 3000. -/

def MAX_MESSAGE_LENGTH : Nat := 4000

def isPySpace (c : Char) : Bool :=
  let n := c.toNat
  (decide (0x09 ≤ n) && decide (n ≤ 0x0d))
    || (decide (0x1c ≤ n) && decide (n ≤ 0x20))
    || decide (n = 0x85) || decide (n = 0xa0) || decide (n = 0x1680)
    || (decide (0x2000 ≤ n) && decide (n ≤ 0x200a))
    || decide (n = 0x2028) || decide (n = 0x2029) || decide (n = 0x202f)
    || decide (n = 0x205f) || decide (n = 0x3000)

/-- `message.split(chr 10)`: split at every newline, keeping empty pieces. -/
def splitLines : List Char → List (List Char)
  | [] => [[]]
  | c :: rest =>
    if c = '\n' then [] :: splitLines rest
    else
      match splitLines rest with
      | [] => [[c]]
      | l :: ls => (c :: l) :: ls

/-- Join pieces back with single newlines (the inverse of `splitLines`). -/
def joinLines : List (List Char) → List Char
  | [] => []
  | [l] => l
  | l :: ls => l ++ '\n' :: joinLines ls

/-- `s.strip()`: drop whitespace from the front, then from the back. -/
def pyStrip (s : List Char) : List Char :=
  ((s.dropWhile isPySpace).reverse.dropWhile isPySpace).reverse

/-- One iteration of the chunking loop (lines 98-108), on the state
`(chunks sent so far, current_chunk)`. -/
def chunkStep (maxLen : Nat) (st : List (List Char) × List Char)
    (line : List Char) : List (List Char) × List Char :=
  if maxLen < st.2.length + (line.length + 1) then
    if st.2.isEmpty then (st.1 ++ [line.take maxLen], st.2)
    else (st.1 ++ [pyStrip st.2], line ++ ['\n'])
  else (st.1, st.2 ++ line ++ ['\n'])

/-- The trailing flush (lines 110-112). -/
def flushChunks (st : List (List Char) × List Char) : List (List Char) :=
  if st.2.isEmpty then st.1 else st.1 ++ [pyStrip st.2]

/-- `send_telegram_message` (lines 87-112) with the length limit as a
parameter: the list of message chunks actually sent, in order. -/
def split_message (maxLen : Nat) (message : List Char) : List (List Char) :=
  if message.length ≤ maxLen then [message]
  else flushChunks ((splitLines message).foldl (chunkStep maxLen) ([], []))

/-- `send_telegram_message` proper, at the hard-coded limit of 4000. -/
def send_telegram_message (message : List Char) : List (List Char) :=
  split_message MAX_MESSAGE_LENGTH message

/-- A line the chunker treats losslessly: short enough to fit a chunk with
its newline, and no leading/trailing whitespace for `strip` to eat. -/
def goodLine (maxLen : Nat) (l : List Char) : Bool :=
  decide (l.length + 1 ≤ maxLen)
  && (match l.head? with
      | some ch => !isPySpace ch
      | none => false)
  && (match l.getLast? with
      | some ch => !isPySpace ch
      | none => false)

/-! ## Run trace (src/bot.py lines 150-201) -/

/-- The observable effects of one run, in program order. -/
inductive Eff where
  | checkMarker
  | writeMarker
  | loadState
  | fetchAcct (steam_id : String)
  | sendChange (steam_id : String)
  | saveState
  | sendSummary
  | sendDetails
  | logChanges
  | logNoChanges
deriving DecidableEq, Repr

/-- `total_accounts` (line 181): roster occurrences found in `current`. -/
def totalAccounts (roster : List String) (current : List (String × Nat)) : Nat :=
  (roster.filter (fun steam_id => decide (steam_id ∈ dictKeys current))).length

/-- The effect trace of `check_accounts` (lines 150-201), in program order:
the first-run marker check (writing the marker when absent), the state load,
one fetch per roster occurrence, one Telegram send per change event as the
results loop finds it, the snapshot save, and last the first-run summary
messages (the detailed listing only for at most 50 monitored accounts) or
the log line. -/
def check_accounts_trace (roster : List String) (api : String → FetchOutcome)
    (previous : List (String × Nat)) (markerExists : Bool) : List Eff :=
  let first_run := (is_first_run markerExists).1
  let st := check_accounts roster api previous first_run
  (if markerExists then [Eff.checkMarker] else [Eff.checkMarker, Eff.writeMarker])
    ++ [Eff.loadState]
    ++ roster.map Eff.fetchAcct
    ++ st.changes.map (fun e => Eff.sendChange e.accountId)
    ++ [Eff.saveState]
    ++ (if first_run then
          Eff.sendSummary ::
            (if totalAccounts roster st.current ≤ 50 then [Eff.sendDetails] else [])
        else if st.changes.isEmpty then [Eff.logNoChanges] else [Eff.logChanges])

def effIsLoad : Eff → Bool
  | .loadState => true
  | _ => false

def effIsFetch : Eff → Bool
  | .fetchAcct _ => true
  | _ => false

def effIsSendChange : Eff → Bool
  | .sendChange _ => true
  | _ => false

def effIsSave : Eff → Bool
  | .saveState => true
  | _ => false

def effIsSummary : Eff → Bool
  | .sendSummary => true
  | _ => false

def effFetchOf (a : String) : Eff → Bool
  | .fetchAcct b => b == a
  | _ => false

def effSendChangeOf (a : String) : Eff → Bool
  | .sendChange b => b == a
  | _ => false

/-- Every effect matched by `P` happens strictly before every effect matched
by `Q` in the trace. -/
def allBefore (P Q : Eff → Bool) (tr : List Eff) : Prop :=
  ∀ (i j : Nat) (hi : i < tr.length) (hj : j < tr.length),
    P (tr.get ⟨i, hi⟩) = true → Q (tr.get ⟨j, hj⟩) = true → i < j

/-! ## The configured roster (src/bot.py lines 14-55) -/

/-- `STEAM_ACCOUNTS`, verbatim: 248 entries, duplicates included. -/
def STEAM_ACCOUNTS : List String := [
    "76561199419240292", "76561199528974295", "76561199418027556", "76561199527942381", "76561199418272921", "76561199420987416",
    "76561199416899795", "76561199430042714", "76561199432208134", "76561199404392645", "76561199416330702", "76561199528207164",
    "76561199444883653", "76561199527719299", "76561199418245374", "76561199419478521", "76561199528252168", "76561199420619445",
    "76561199434846406", "76561199417492884", "76561199418972285", "76561199419222699", "76561199527844086", "76561199417331887",
    "76561199528104750", "76561199417896406", "76561199435031882", "76561199417449874", "76561199418648313", "76561199420296040",
    "76561199434904088", "76561199431267566", "76561199528126727", "76561199430053630", "76561199417783633", "76561199432726503",
    "76561199431286132", "76561199419937468", "76561199417586074", "76561199433473782", "76561199433508995", "76561199528368811",
    "76561199419628572", "76561199418134607", "76561199527800632", "76561199419325827", "76561199433563059", "76561199527611344",
    "76561199420430794", "76561199418039488", "76561199527396764", "76561199417703947", "76561199431758617", "76561199434613423",
    "76561199421315946", "76561199528316816", "76561199433770220", "76561199419040559", "76561199431510092", "76561199416386954",
    "76561199444460905", "76561199417703947", "76561199420348905", "76561199419777845", "76561199528324051", "76561199404766318",
    "76561199432979383", "76561199418614186", "76561199420066485", "76561199434267626", "76561199433056341", "76561199419550381",
    "76561199417701336", "76561199528886386", "76561199434000454", "76561199419058378", "76561199527883112", "76561199528037890",
    "76561199418107172", "76561199528738484", "76561199433216466", "76561199444407752", "76561199528046657", "76561199432695506",
    "76561199416913404", "76561199418155999", "76561199419659927", "76561199418107172", "76561199528738484", "76561199417660795",
    "76561199433706551", "76561199434000454", "76561199528689443", "76561199434796124", "76561199443818915", "76561199431668090",
    "76561199528407826", "76561199418485509", "76561199420529526", "76561199434619303", "76561199419679089", "76561199419690336",
    "76561199528179319", "76561199434327859", "76561199417817156", "76561199417302243", "76561199528523007", "76561199444592159",
    "76561199432986256", "76561199444681000", "76561199433553388", "76561199527665527", "76561199433553388", "76561199418041369",
    "76561199527142067", "76561199528113025", "76561199432729789", "76561199527946571", "76561199420414495", "76561199418700318",
    "76561199417765824", "76561199444330870", "76561199431649506", "76561199416799410", "76561199444068009", "76561199404568031",
    "76561199430542827", "76561199528767663", "76561199418041369", "76561199527946571", "76561199419410856", "76561199417162976",
    "76561199444184678", "76561199527737182", "76561199430165425", "76561199528477677", "76561199527287537", "76561199429708232",
    "76561199420598343", "76561199528500358", "76561199430281304", "76561199417046195", "76561199434729654", "76561199417888824",
    "76561199418617278", "76561199418336966", "76561199528365163", "76561199404993033", "76561199432847032", "76561199433979540",
    "76561199418479099", "76561199417163062", "76561199415983354", "76561199528806801", "76561199433303998", "76561199527989318",
    "76561199417505038", "76561199433542275", "76561199528300767", "76561199528052127", "76561199528497800", "76561199418225012",
    "76561199433107105", "76561199419764677", "76561199431856377", "76561199443887021", "76561199420378997", "76561199432981955",
    "76561199417806467", "76561199421502761", "76561199528389664", "76561199443791871", "76561199528075461", "76561199419027924",
    "76561199419627179", "76561199528247910", "76561199431721475", "76561199419948293", "76561199430048849", "76561199421438640",
    "76561199433556206", "76561199527853688", "76561199417516244", "76561199430183139", "76561199419360519", "76561199420819898",
    "76561199528725730", "76561199528255589", "76561199417804758", "76561199528210792", "76561199527112323", "76561199418084035",
    "76561199417580242", "76561199417230883", "76561199417487625", "76561199429545400", "76561199528188514", "76561199528046858",
    "76561199419026106", "76561199419400066", "76561199417580242", "76561199418225012", "76561199434085808", "76561199418807171",
    "76561199419217264", "76561199419607569", "76561199527998449", "76561199417381288", "76561199528047369", "76561199417196023",
    "76561199434364777", "76561199528665392", "76561199418980682", "76561199527495560", "76561199419728897", "76561199421374395",
    "76561199528077087", "76561199438498281", "76561199528523573", "76561199529078053", "76561199528690266", "76561199528133667",
    "76561199430417121", "76561199417682963", "76561199528480269", "76561199527827460", "76561199419109467", "76561199528234752",
    "76561199418635996", "76561199418826942", "76561199431520867", "76561199528783061", "76561199417206517", "76561199432483045",
    "76561199417960105", "76561199528021054", "76561199527912883", "76561199417396660", "76561199434206641", "76561199418372202",
    "76561199419179098", "76561199430657188", "76561199527925976", "76561199417279458", "76561199430186675", "76561199420065391",
    "76561199431743027", "76561199434684790"]

/-! ## Dict lemmas -/

theorem dictKeys_nil : dictKeys [] = [] := rfl

theorem dictKeys_cons (p : String × Nat) (rest : List (String × Nat)) :
    dictKeys (p :: rest) = p.1 :: dictKeys rest := rfl

theorem dictGet_dictSet (d : List (String × Nat)) (k : String) (v : Nat)
    (a : String) :
    dictGet (dictSet d k v) a = if k = a then some v else dictGet d a := by
  induction d with
  | nil => simp [dictSet, dictGet]
  | cons p rest ih =>
    by_cases hka : k = a
    · subst hka
      by_cases hpk : p.1 = k
      · simp [dictSet, dictGet, hpk]
      · simp [dictSet, dictGet, hpk, ih]
    · by_cases hpk : p.1 = k
      · have hpa : ¬ p.1 = a := fun hh => hka (hpk ▸ hh)
        simp [dictSet, dictGet, hpk, hka, hpa]
      · by_cases hpa : p.1 = a
        · have hak : ¬ a = k := fun hh => hka hh.symm
          simp [dictSet, dictGet, hpk, hka, hpa, hak, ih]
        · simp [dictSet, dictGet, hpk, hka, hpa, ih]

theorem mem_dictKeys_dictSet (d : List (String × Nat)) (k : String) (v : Nat)
    (a : String) :
    a ∈ dictKeys (dictSet d k v) ↔ a = k ∨ a ∈ dictKeys d := by
  induction d with
  | nil => simp [dictSet, dictKeys_cons, dictKeys_nil]
  | cons p rest ih =>
    by_cases hpk : p.1 = k
    · simp only [dictSet, hpk, if_pos, dictKeys_cons, List.mem_cons]
      tauto
    · simp only [dictSet, hpk, if_neg, not_false_iff, dictKeys_cons,
        List.mem_cons, ih]
      tauto

theorem dictKeys_nodup_dictSet (d : List (String × Nat)) (k : String) (v : Nat)
    (h : (dictKeys d).Nodup) : (dictKeys (dictSet d k v)).Nodup := by
  induction d with
  | nil => simp [dictSet, dictKeys]
  | cons p rest ih =>
    rw [dictKeys_cons, List.nodup_cons] at h
    by_cases hpk : p.1 = k
    · rw [show dictSet (p :: rest) k v = (k, v) :: rest by simp [dictSet, hpk]]
      rw [dictKeys_cons, List.nodup_cons]
      exact ⟨hpk ▸ h.1, h.2⟩
    · rw [show dictSet (p :: rest) k v = p :: dictSet rest k v by
        simp [dictSet, hpk]]
      rw [dictKeys_cons, List.nodup_cons]
      refine ⟨fun hmem => ?_, ih h.2⟩
      rcases (mem_dictKeys_dictSet rest k v p.1).mp hmem with h1 | h1
      · exact hpk h1
      · exact h.1 h1

theorem dictGet_isSome_iff_mem (d : List (String × Nat)) (a : String) :
    (dictGet d a).isSome = true ↔ a ∈ dictKeys d := by
  induction d with
  | nil => simp [dictGet, dictKeys_nil]
  | cons p rest ih =>
    by_cases hpa : p.1 = a
    · simp [dictGet, dictKeys_cons, hpa]
    · have hap : ¬ a = p.1 := fun hh => hpa hh.symm
      simp [dictGet, dictKeys_cons, hpa, hap, ih]

/-! ## Loop characterisation lemmas -/

theorem changeFor_accountId (previous : List (String × Nat)) (first_run : Bool)
    (r : String × String × Option Nat) (e : ChangeEvent)
    (h : changeFor previous first_run r = some e) : e.accountId = r.1 := by
  rcases r with ⟨id, link, cnt⟩
  simp only [changeFor] at h
  split at h
  · exact Option.noConfusion h
  · split at h
    · exact Option.noConfusion h
    · split at h
      · exact Option.noConfusion h
      · split at h
        · simp only [Option.some.injEq] at h
          rw [← h]
        · split at h
          · simp only [Option.some.injEq] at h
            rw [← h]
          · exact Option.noConfusion h

theorem foldl_processResult_changes (previous : List (String × Nat))
    (first_run : Bool) (results : List (String × String × Option Nat))
    (st : RunState) :
    (results.foldl (processResult previous first_run) st).changes
      = st.changes ++ results.filterMap (changeFor previous first_run) := by
  induction results generalizing st with
  | nil => simp
  | cons r rest ih =>
    rcases r with ⟨id, link, cnt⟩
    cases cnt with
    | none =>
      have hnone : changeFor previous first_run (id, link, none) = none := by
        simp [changeFor]
      simp only [List.foldl_cons, List.filterMap_cons, hnone]
      have hpr : processResult previous first_run st (id, link, none) = st := by
        simp [processResult]
      rw [hpr, ih]
    | some c =>
      simp only [List.foldl_cons, List.filterMap_cons]
      cases he : changeFor previous first_run (id, link, some c) with
      | none =>
        have hpr : processResult previous first_run st (id, link, some c)
            = ⟨dictSet st.current id c, st.changes⟩ := by
          simp [processResult, he]
        rw [hpr, ih]
      | some e =>
        have hpr : processResult previous first_run st (id, link, some c)
            = ⟨dictSet st.current id c, st.changes ++ [e]⟩ := by
          simp [processResult, he]
        rw [hpr, ih]
        simp

theorem fetch_friend_count_eq (steam_id : String) (o : FetchOutcome) :
    fetch_friend_count steam_id o
      = (steam_id, get_profile_link steam_id, o.count) := by
  cases o <;> rfl

theorem changeFor_inv (previous : List (String × Nat)) (first_run : Bool)
    (r : String × String × Option Nat) (e : ChangeEvent)
    (h : changeFor previous first_run r = some e) :
    e.accountId = r.1 ∧ r.2.2 = some e.newCount
      ∧ dictGet previous r.1 = some e.prevCount
      ∧ first_run = false ∧ e.prevCount ≠ e.newCount := by
  rcases r with ⟨id, link, cnt⟩
  simp only [changeFor] at h
  split at h
  · exact Option.noConfusion h
  · split at h
    · exact Option.noConfusion h
    · rename_i p hp
      split at h
      · exact Option.noConfusion h
      · rename_i hfr
        have hfr2 : first_run = false := by
          cases first_run
          · rfl
          · exact absurd rfl hfr
        split at h
        · rename_i hlt
          simp only [Option.some.injEq] at h
          subst h
          exact ⟨rfl, rfl, hp, hfr2, Nat.ne_of_lt hlt⟩
        · split at h
          · rename_i hlt2
            simp only [Option.some.injEq] at h
            subst h
            exact ⟨rfl, rfl, hp, hfr2, (Nat.ne_of_lt hlt2).symm⟩
          · exact Option.noConfusion h

theorem changeFor_first_run (previous : List (String × Nat))
    (r : String × String × Option Nat) : changeFor previous true r = none := by
  rcases r with ⟨id, link, cnt⟩
  cases cnt with
  | none => rfl
  | some c =>
    simp only [changeFor]
    cases hp : dictGet previous id <;> simp

theorem processResult_current (previous : List (String × Nat))
    (first_run : Bool) (st : RunState) (r : String × String × Option Nat) :
    (processResult previous first_run st r).current
      = match r.2.2 with
        | none => st.current
        | some count => dictSet st.current r.1 count := by
  rcases r with ⟨id, link, cnt⟩
  cases cnt with
  | none => rfl
  | some c =>
    cases h : changeFor previous first_run (id, link, some c) <;>
      simp [processResult, h]

theorem check_accounts_changes (roster : List String)
    (api : String → FetchOutcome) (previous : List (String × Nat))
    (first_run : Bool) :
    (check_accounts roster api previous first_run).changes
      = roster.filterMap
          (fun id => changeFor previous first_run (id, get_profile_link id, (api id).count)) := by
  unfold check_accounts
  rw [foldl_processResult_changes]
  simp only [List.nil_append, List.filterMap_map]
  congr 1
  funext id
  simp only [Function.comp_apply]
  rw [fetch_friend_count_eq]

theorem foldl_processResult_current_get (previous : List (String × Nat))
    (first_run : Bool) (api : String → FetchOutcome) (roster : List String)
    (st : RunState) (a : String) :
    dictGet ((roster.map (fun id => fetch_friend_count id (api id))).foldl
        (processResult previous first_run) st).current a
      = if a ∈ roster ∧ ((api a).count).isSome = true then (api a).count
        else dictGet st.current a := by
  induction roster generalizing st with
  | nil => simp
  | cons id rest ih =>
    simp only [List.map_cons, List.foldl_cons]
    rw [ih]
    by_cases hmem : a ∈ rest ∧ ((api a).count).isSome = true
    · rw [if_pos hmem, if_pos ⟨List.mem_cons_of_mem id hmem.1, hmem.2⟩]
    · rw [if_neg hmem]
      rw [processResult_current, fetch_friend_count_eq]
      cases hcnt : (api id).count with
      | none =>
        have hno : ¬ (a ∈ id :: rest ∧ ((api a).count).isSome = true) := by
          rintro ⟨hin, hsome⟩
          rcases List.mem_cons.mp hin with h1 | h1
          · rw [h1, hcnt] at hsome
            simp at hsome
          · exact hmem ⟨h1, hsome⟩
        rw [if_neg hno]
      | some c =>
        rw [dictGet_dictSet]
        by_cases hid : id = a
        · subst hid
          rw [if_pos rfl,
            if_pos ⟨List.mem_cons_self id rest, by rw [hcnt]; rfl⟩, hcnt]
        · rw [if_neg hid]
          have hno : ¬ (a ∈ id :: rest ∧ ((api a).count).isSome = true) := by
            rintro ⟨hin, hsome⟩
            rcases List.mem_cons.mp hin with h1 | h1
            · exact hid h1.symm
            · exact hmem ⟨h1, hsome⟩
          rw [if_neg hno]

theorem map_accountId_filterMap_sublist (g : String → Option ChangeEvent)
    (hg : ∀ id e, g id = some e → e.accountId = id) (roster : List String) :
    ((roster.filterMap g).map ChangeEvent.accountId).Sublist roster := by
  induction roster with
  | nil => simp
  | cons id rest ih =>
    cases hgid : g id with
    | none =>
      simp only [List.filterMap_cons, hgid]
      exact ih.cons id
    | some e =>
      simp only [List.filterMap_cons, hgid, List.map_cons, hg id e hgid]
      exact ih.cons₂ id

/-- C10: for every roster, fetch behaviour, previous snapshot and first-run
flag, the emitted change events follow the configured account order: the list
of event account ids is a sublist of the roster (an order-preserving
selection), so events are never reordered by change magnitude; and since
`check_accounts` is a function of its inputs (asyncio.gather returns results
in task order, independent of completion order), the event list is
deterministic. -/
theorem C10_events_follow_roster_order (roster : List String)
    (api : String → FetchOutcome) (previous : List (String × Nat))
    (first_run : Bool) :
    (((check_accounts roster api previous first_run).changes).map
        ChangeEvent.accountId).Sublist roster := by
  rw [check_accounts_changes]
  exact map_accountId_filterMap_sublist _
    (fun id e h => (changeFor_inv _ _ _ _ h).1) roster

/-- C4: the diff produces zero change events on a first run, whatever the
snapshots hold; and every emitted event comes from an account present in both
the previous snapshot and the fetched results with two differing counts, so
accounts with equal counts or present in only one snapshot produce no
event. -/
theorem C4_no_event_on_equal_or_missing (roster : List String)
    (api : String → FetchOutcome) (previous : List (String × Nat)) :
    (check_accounts roster api previous true).changes = []
    ∧ ∀ (first_run : Bool),
        ∀ e ∈ (check_accounts roster api previous first_run).changes,
          first_run = false
          ∧ dictGet previous e.accountId = some e.prevCount
          ∧ (api e.accountId).count = some e.newCount
          ∧ e.prevCount ≠ e.newCount := by
  constructor
  · rw [check_accounts_changes]
    exact List.filterMap_eq_nil_iff.mpr (fun id _ => changeFor_first_run previous _)
  · intro first_run e he
    rw [check_accounts_changes] at he
    rcases List.mem_filterMap.mp he with ⟨id, _, hid⟩
    have hinv := changeFor_inv _ _ _ _ hid
    refine ⟨hinv.2.2.2.1, ?_, ?_, hinv.2.2.2.2⟩
    · rw [hinv.1]
      exact hinv.2.2.1
    · rw [hinv.1]
      exact hinv.2.1

/-- C4 witness: a concrete non-first run with previous={x:3} and a fetched
count of 5 emits the event ⟨x,3,5⟩, and the theorem's consequences hold for
it; the first-run conjunct is closed at the same inputs. -/
theorem C4_witness :
    (⟨"x", 3, 5⟩ : ChangeEvent) ∈ (check_accounts ["x"]
        (fun _ => FetchOutcome.ok 5) [("x", 3)] false).changes
    ∧ (false = false
        ∧ dictGet [("x", 3)] (ChangeEvent.accountId ⟨"x", 3, 5⟩)
            = some (ChangeEvent.prevCount ⟨"x", 3, 5⟩)
        ∧ (FetchOutcome.count (FetchOutcome.ok 5))
            = some (ChangeEvent.newCount ⟨"x", 3, 5⟩)
        ∧ ChangeEvent.prevCount ⟨"x", 3, 5⟩ ≠ ChangeEvent.newCount ⟨"x", 3, 5⟩) :=
  ⟨by decide,
    (C4_no_event_on_equal_or_missing ["x"] (fun _ => FetchOutcome.ok 5)
        [("x", 3)]).2 false ⟨"x", 3, 5⟩ (by decide)⟩

/-- C6: the persisted snapshot holds exactly the successfully fetched
accounts: looking up any account in the saved dict yields its fetched count
when the account is on the roster and its fetch returned 200, and nothing
(absent, not recorded as zero) when the fetch was forbidden/failed or the
account is not on the roster; moreover every emitted event belongs to an
account whose fetch succeeded, so no event is produced for a failed account
even if it was present in the previous snapshot. -/
theorem C6_current_snapshot_exact (roster : List String)
    (api : String → FetchOutcome) (previous : List (String × Nat))
    (first_run : Bool) (a : String) :
    dictGet (check_accounts roster api previous first_run).current a
      = (if a ∈ roster then (api a).count else none)
    ∧ (check_accounts roster api previous first_run).changes.all
        (fun e => ((api e.accountId).count).isSome) = true := by
  constructor
  · unfold check_accounts
    rw [foldl_processResult_current_get]
    by_cases hmem : a ∈ roster
    · by_cases hsome : ((api a).count).isSome = true
      · rw [if_pos ⟨hmem, hsome⟩, if_pos hmem]
      · rw [if_neg (fun hh => hsome hh.2), if_pos hmem]
        simp only [dictGet]
        cases hcnt : (api a).count with
        | none => rfl
        | some c => rw [hcnt] at hsome; exact absurd rfl hsome
    · rw [if_neg (fun hh => hmem hh.1), if_neg hmem]
      rfl
  · rw [List.all_eq_true]
    intro e he
    rw [check_accounts_changes] at he
    rcases List.mem_filterMap.mp he with ⟨id, _, hid⟩
    have hinv := changeFor_inv _ _ _ _ hid
    dsimp only at hinv ⊢
    rw [hinv.1, hinv.2.1]
    rfl

/-- C7: `is_first_run` is a one-way latch: with the marker absent it returns
True and records the marker; with the marker present it returns False and
leaves the marker in place; hence over any sequence of successive calls it
returns True at most once for the life of the persisted marker. -/
theorem C7_first_run_latch :
    is_first_run false = (true, true)
    ∧ is_first_run true = (false, true)
    ∧ ∀ (n : Nat) (s : Bool), (runFirstRunCalls n s).count true ≤ 1 := by
  refine ⟨rfl, rfl, ?_⟩
  have hpresent : ∀ n, (runFirstRunCalls n true).count true = 0 := by
    intro n
    induction n with
    | zero => rfl
    | succ m ih =>
      have h1 : runFirstRunCalls (m + 1) true
          = false :: runFirstRunCalls m true := rfl
      rw [h1, List.count_cons_of_ne (by decide), ih]
  intro n s
  cases s
  · cases n with
    | zero => simp [runFirstRunCalls]
    | succ m =>
      have h1 : runFirstRunCalls (m + 1) false
          = true :: runFirstRunCalls m true := rfl
      rw [h1, List.count_cons_self, hpresent m]
  · rw [hpresent n]
    exact Nat.zero_le 1

/-- C8: the notifier never raises past its caller: for every message text and
every delivery outcome — success, a non-200 status, or a transport
exception — `_send_single_message` returns normally (an `.ok` log line,
never `.error`), so a Telegram failure can never fail the overall run. -/
theorem C8_notify_never_raises (message : String) (outcome : DeliveryOutcome) :
    ∃ logLine, send_single_message message outcome = Except.ok logLine := by
  cases outcome with
  | status code =>
    by_cases h : code = 200
    · subst h
      exact ⟨"Telegram message sent successfully", rfl⟩
    · refine ⟨"Failed to send message", ?_⟩
      simp [send_single_message, h]
  | transportError e => exact ⟨"Telegram error: " ++ e, rfl⟩

/-- C9 counterexample: the claim fails on the code at the read outcome "valid
JSON that is not a mapping": `json.load` succeeds on e.g. the empty array
and `load_previous_counts` returns that array as is instead of the empty
mapping. -/
theorem C9_counterexample :
    ¬ (∀ (o : ReadOutcome), o.wellFormed = false →
        load_previous_counts o = Json.obj []) := by
  intro h
  have h2 := h (ReadOutcome.parsed (Json.arr [])) rfl
  exact Json.noConfusion h2

/-- C9 amended: loading treats a missing file and a file that is not valid
JSON as the empty mapping; but a file holding valid JSON of any shape is
returned exactly as parsed — even when it is not a well-formed stored
mapping. -/
theorem C9_amended :
    load_previous_counts ReadOutcome.missing = Json.obj []
    ∧ load_previous_counts ReadOutcome.notJson = Json.obj []
    ∧ ∀ (v : Json), load_previous_counts (ReadOutcome.parsed v) = v :=
  ⟨rfl, rfl, fun _ => rfl⟩

theorem changes_filter_eq_replicate (roster : List String)
    (api : String → FetchOutcome) (previous : List (String × Nat))
    (a : String) (p c : Nat)
    (hp : dictGet previous a = some p) (hc : (api a).count = some c)
    (hne : p ≠ c) :
    (check_accounts roster api previous false).changes.filter
        (fun e => e.accountId == a)
      = List.replicate (roster.count a) (⟨a, p, c⟩ : ChangeEvent) := by
  rw [check_accounts_changes]
  induction roster with
  | nil => simp
  | cons id rest ih =>
    rw [List.filterMap_cons]
    by_cases hid : id = a
    · subst hid
      have hch : changeFor previous false (id, get_profile_link id, (api id).count)
          = some ⟨id, p, c⟩ := by
        simp only [changeFor, hc, hp]
        rcases Nat.lt_or_ge p c with h1 | h1
        · simp [h1]
        · have h2 : c < p := Nat.lt_of_le_of_ne h1 (fun hh => hne hh.symm)
          have h3 : ¬ p < c := Nat.not_lt.mpr h1
          simp [h2, h3]
      rw [hch]
      have hpred : ((⟨id, p, c⟩ : ChangeEvent).accountId == id) = true := by simp
      rw [List.filter_cons, if_pos hpred, List.count_cons_self,
        List.replicate_succ, ih]
    · cases hch : changeFor previous false (id, get_profile_link id, (api id).count) with
      | none =>
        rw [List.count_cons_of_ne (fun hh => hid hh.symm), ih]
      | some e =>
        have hacc := (changeFor_inv _ _ _ _ hch).1
        dsimp only at hacc
        have hpred : (e.accountId == a) = false := by
          rw [hacc]
          simp [hid]
        rw [List.filter_cons, if_neg (by simp [hpred]),
          List.count_cons_of_ne (fun hh => hid hh.symm), ih]

theorem countP_changes_and (roster : List String)
    (api : String → FetchOutcome) (previous : List (String × Nat))
    (a : String) (p c : Nat)
    (hp : dictGet previous a = some p) (hc : (api a).count = some c)
    (hne : p ≠ c) (q : ChangeEvent → Bool) :
    (check_accounts roster api previous false).changes.countP
        (fun e => (e.accountId == a) && q e)
      = if q ⟨a, p, c⟩ = true then roster.count a else 0 := by
  have h1 : (check_accounts roster api previous false).changes.countP
        (fun e => (e.accountId == a) && q e)
      = List.countP q ((check_accounts roster api previous false).changes.filter
          (fun e => e.accountId == a)) := by
    rw [List.countP_filter]
    congr 1
    funext e
    rw [Bool.and_comm]
  rw [h1, changes_filter_eq_replicate roster api previous a p c hp hc hne,
    List.countP_replicate]

/-- C1 counterexample: the claim as stated fails on the code: the roster may
list — and STEAM_ACCOUNTS does list — the same identifier twice, and then
two increase events are produced for that one account instead of exactly
one.  Concretely: roster ["x","x"], previous {x:3}, every fetch returning
200 with 5 friends. -/
theorem C1_counterexample :
    ¬ (∀ (roster : List String) (api : String → FetchOutcome)
        (previous : List (String × Nat)) (a : String) (p c : Nat),
        dictGet previous a = some p →
        dictGet (check_accounts roster api previous false).current a = some c →
        p < c →
        (check_accounts roster api previous false).changes.countP
            (isIncreaseFor a) = 1) := by
  intro h
  exact absurd
    (h ["x", "x"] (fun _ => FetchOutcome.ok 5) [("x", 3)] "x" 3 5
      (by decide) (by decide) (by decide))
    (by decide)

/-- C1 amended: one event per roster occurrence.  On a non-first run, for an
account `a` whose previous count is `p` and whose fetch succeeded with count
`c`: if `p < c`, exactly `roster.count a` increase events are emitted for `a`
(and no decrease event); if `c < p`, exactly `roster.count a` decrease events
(and no increase event); and every event for `a` records previous count `p`
and new count `c`, hence delta `c - p` resp. `p - c`.  The claim's "exactly
one" is recovered exactly when the identifier occurs once in the roster. -/
theorem C1_events_per_occurrence (roster : List String)
    (api : String → FetchOutcome) (previous : List (String × Nat))
    (a : String) (p c : Nat)
    (hp : dictGet previous a = some p) (hc : (api a).count = some c) :
    (p < c →
      (check_accounts roster api previous false).changes.countP (isIncreaseFor a)
          = roster.count a
      ∧ (check_accounts roster api previous false).changes.countP (isDecreaseFor a)
          = 0)
    ∧ (c < p →
      (check_accounts roster api previous false).changes.countP (isDecreaseFor a)
          = roster.count a
      ∧ (check_accounts roster api previous false).changes.countP (isIncreaseFor a)
          = 0)
    ∧ (p ≠ c → ∀ e ∈ (check_accounts roster api previous false).changes,
        e.accountId = a → e = ⟨a, p, c⟩) := by
  refine ⟨fun hlt => ⟨?_, ?_⟩, fun hlt => ⟨?_, ?_⟩, fun hne e he hacc => ?_⟩
  · have h := countP_changes_and roster api previous a p c hp hc
      (Nat.ne_of_lt hlt) (fun e => decide (e.prevCount < e.newCount))
    rw [if_pos (by simp [hlt])] at h
    exact h
  · have h := countP_changes_and roster api previous a p c hp hc
      (Nat.ne_of_lt hlt) (fun e => decide (e.newCount < e.prevCount))
    rw [if_neg (by simp [Nat.lt_asymm hlt])] at h
    exact h
  · have h := countP_changes_and roster api previous a p c hp hc
      (fun hh => Nat.ne_of_lt hlt hh.symm) (fun e => decide (e.newCount < e.prevCount))
    rw [if_pos (by simp [hlt])] at h
    exact h
  · have h := countP_changes_and roster api previous a p c hp hc
      (fun hh => Nat.ne_of_lt hlt hh.symm) (fun e => decide (e.prevCount < e.newCount))
    rw [if_neg (by simp [Nat.lt_asymm hlt])] at h
    exact h
  · have hmemf : e ∈ (check_accounts roster api previous false).changes.filter
        (fun x => x.accountId == a) :=
      List.mem_filter.mpr ⟨he, by simp [hacc]⟩
    rw [changes_filter_eq_replicate roster api previous a p c hp hc hne] at hmemf
    exact List.eq_of_mem_replicate hmemf

/-- C1 amended witness: roster ["x","y","x"], previous {x:3}, every fetch 200
with count 5: the hypotheses hold and the theorem applies, giving two
increase events for x (count of "x" in the roster) and none for a
decrease. -/
theorem C1_events_per_occurrence_witness :
    (dictGet [("x", 3)] "x" = some 3
      ∧ FetchOutcome.count (FetchOutcome.ok 5) = some 5 ∧ 3 < 5)
    ∧ ((check_accounts ["x", "y", "x"] (fun _ => FetchOutcome.ok 5)
          [("x", 3)] false).changes.countP (isIncreaseFor "x")
        = (["x", "y", "x"] : List String).count "x"
      ∧ (check_accounts ["x", "y", "x"] (fun _ => FetchOutcome.ok 5)
          [("x", 3)] false).changes.countP (isDecreaseFor "x") = 0) :=
  ⟨⟨by decide, by decide, by decide⟩,
    (C1_events_per_occurrence ["x", "y", "x"] (fun _ => FetchOutcome.ok 5)
      [("x", 3)] "x" 3 5 (by decide) (by decide)).1 (by decide)⟩

theorem countP_eq_zero_of_all_false {α : Type _} {l : List α} {P : α → Bool}
    (h : ∀ e ∈ l, P e = false) : l.countP P = 0 :=
  List.countP_eq_zero.mpr (fun e he => by simp [h e he])

theorem foldl_processResult_keys_nodup (previous : List (String × Nat))
    (first_run : Bool) (results : List (String × String × Option Nat))
    (st : RunState) (h : (dictKeys st.current).Nodup) :
    (dictKeys ((results.foldl (processResult previous first_run) st).current)).Nodup := by
  induction results generalizing st with
  | nil => exact h
  | cons r rest ih =>
    rw [List.foldl_cons]
    apply ih
    rw [processResult_current]
    rcases r with ⟨id, link, cnt⟩
    cases cnt with
    | none => exact h
    | some cc => exact dictKeys_nodup_dictSet _ _ _ h

theorem check_accounts_keys_nodup (roster : List String)
    (api : String → FetchOutcome) (previous : List (String × Nat))
    (first_run : Bool) :
    (dictKeys (check_accounts roster api previous first_run).current).Nodup := by
  unfold check_accounts
  exact foldl_processResult_keys_nodup _ _ _ _ List.nodup_nil

theorem trace_countP_fetchOf (roster : List String)
    (api : String → FetchOutcome) (previous : List (String × Nat))
    (markerExists : Bool) (a : String) :
    (check_accounts_trace roster api previous markerExists).countP (effFetchOf a)
      = roster.count a := by
  have hfetch : (roster.map Eff.fetchAcct).countP (effFetchOf a) = roster.count a := by
    rw [List.countP_map, List.count_eq_countP]
    congr 1
  have hsend : ∀ (evs : List ChangeEvent),
      ((evs.map (fun e => Eff.sendChange e.accountId)).countP (effFetchOf a)) = 0 := by
    intro evs
    rw [List.countP_map]
    apply countP_eq_zero_of_all_false
    intro e he
    rfl
  cases markerExists with
  | true =>
    simp only [check_accounts_trace, is_first_run, if_pos, if_true,
      List.countP_append, hfetch, hsend]
    cases hch : (check_accounts roster api previous false).changes.isEmpty <;>
      simp [hch, effFetchOf, List.countP_cons]
  | false =>
    simp only [check_accounts_trace, is_first_run, if_neg, if_false,
      List.countP_append, hfetch, hsend]
    by_cases h50 : totalAccounts roster
        (check_accounts roster api previous true).current ≤ 50 <;>
      simp [h50, effFetchOf, List.countP_cons]

theorem trace_countP_sendOf (roster : List String)
    (api : String → FetchOutcome) (previous : List (String × Nat))
    (markerExists : Bool) (a : String) :
    (check_accounts_trace roster api previous markerExists).countP (effSendChangeOf a)
      = (check_accounts roster api previous
          (is_first_run markerExists).1).changes.countP (fun e => e.accountId == a) := by
  have hfetch : (roster.map Eff.fetchAcct).countP (effSendChangeOf a) = 0 := by
    rw [List.countP_map]
    apply countP_eq_zero_of_all_false
    intro e he
    rfl
  have hsend : ∀ (evs : List ChangeEvent),
      ((evs.map (fun e => Eff.sendChange e.accountId)).countP (effSendChangeOf a))
        = evs.countP (fun e => e.accountId == a) := by
    intro evs
    rw [List.countP_map]
    congr 1
  cases markerExists with
  | true =>
    simp only [check_accounts_trace, is_first_run, if_pos, if_true,
      List.countP_append, hfetch, hsend]
    cases hch : (check_accounts roster api previous false).changes.isEmpty <;>
      simp [hch, effSendChangeOf, List.countP_cons]
  | false =>
    simp only [check_accounts_trace, is_first_run, if_neg, if_false,
      List.countP_append, hfetch, hsend]
    by_cases h50 : totalAccounts roster
        (check_accounts roster api previous true).current ≤ 50 <;>
      simp [h50, effSendChangeOf, List.countP_cons]

/-- C5: when the configured roster STEAM_ACCOUNTS lists the same account
identifier n > 1 times, one fetch is issued per occurrence (n fetch effects
in the run trace); on a non-first run (marker present) where that account's
fetched count differs from its previous count, one change notification is
sent per occurrence (n sendChange effects); and the saved snapshot still
holds a single entry for that identifier. -/
theorem C5_duplicate_roster_entries (api : String → FetchOutcome)
    (previous : List (String × Nat)) (a : String) (p c n : Nat)
    (hcount : STEAM_ACCOUNTS.count a = n) (hn : 1 < n)
    (hp : dictGet previous a = some p) (hc : (api a).count = some c)
    (hne : c ≠ p) :
    (check_accounts_trace STEAM_ACCOUNTS api previous true).countP (effFetchOf a) = n
    ∧ (check_accounts_trace STEAM_ACCOUNTS api previous true).countP
        (effSendChangeOf a) = n
    ∧ (dictKeys (check_accounts STEAM_ACCOUNTS api previous false).current).count a
        = 1 := by
  refine ⟨?_, ?_, ?_⟩
  · rw [trace_countP_fetchOf, hcount]
  · have hfr : (is_first_run true).1 = false := rfl
    rw [trace_countP_sendOf, hfr, List.countP_eq_length_filter,
      changes_filter_eq_replicate STEAM_ACCOUNTS api previous a p c hp hc
        (fun hh => hne hh.symm),
      List.length_replicate, hcount]
  · have hpos : 0 < STEAM_ACCOUNTS.count a := by
      rw [hcount]
      omega
    have hmemroster : a ∈ STEAM_ACCOUNTS := List.count_pos_iff.mp hpos
    have hlook : dictGet (check_accounts STEAM_ACCOUNTS api previous false).current a
        = (api a).count := by
      unfold check_accounts
      rw [foldl_processResult_current_get]
      rw [if_pos ⟨hmemroster, by rw [hc]; rfl⟩]
    have hmem : a ∈ dictKeys (check_accounts STEAM_ACCOUNTS api previous false).current := by
      rw [← dictGet_isSome_iff_mem, hlook, hc]
      rfl
    exact List.count_eq_one_of_mem (check_accounts_keys_nodup _ _ _ _) hmem

set_option maxRecDepth 8192 in
/-- C5 witness: the id 76561199417703947 occurs exactly twice in
STEAM_ACCOUNTS; with previous count 3 and every fetch returning 200 with 5
friends, the theorem applies: two fetch effects, two change notifications,
one saved snapshot entry. -/
theorem C5_duplicate_roster_entries_witness :
    (STEAM_ACCOUNTS.count "76561199417703947" = 2
      ∧ 1 < 2
      ∧ dictGet [("76561199417703947", 3)] "76561199417703947" = some 3
      ∧ FetchOutcome.count (FetchOutcome.ok 5) = some 5
      ∧ (5 : Nat) ≠ 3)
    ∧ ((check_accounts_trace STEAM_ACCOUNTS
          (fun _ => FetchOutcome.ok 5) [("76561199417703947", 3)] true).countP
            (effFetchOf "76561199417703947") = 2
      ∧ (check_accounts_trace STEAM_ACCOUNTS
          (fun _ => FetchOutcome.ok 5) [("76561199417703947", 3)] true).countP
            (effSendChangeOf "76561199417703947") = 2
      ∧ (dictKeys (check_accounts STEAM_ACCOUNTS
          (fun _ => FetchOutcome.ok 5) [("76561199417703947", 3)] false).current).count
            "76561199417703947" = 1) :=
  ⟨⟨by decide, by decide, by decide, by decide, by decide⟩,
    C5_duplicate_roster_entries (fun _ => FetchOutcome.ok 5)
      [("76561199417703947", 3)] "76561199417703947" 3 5 2
      (by decide) (by decide) (by decide) (by decide) (by decide)⟩

theorem forall_mem_append {α : Type _} {P : α → Prop} {l1 l2 : List α}
    (h1 : ∀ e ∈ l1, P e) (h2 : ∀ e ∈ l2, P e) : ∀ e ∈ l1 ++ l2, P e := by
  intro e he
  rcases List.mem_append.mp he with h | h
  · exact h1 e h
  · exact h2 e h

theorem allBefore_append (P Q : Eff → Bool) (t1 t2 : List Eff)
    (h2 : ∀ e ∈ t2, P e = false) (h1 : ∀ e ∈ t1, Q e = false) :
    allBefore P Q (t1 ++ t2) := by
  intro i j hi hj hP hQ
  rw [List.get_eq_getElem] at hP hQ
  rcases Nat.lt_or_ge i t1.length with hi1 | hi1
  · rcases Nat.lt_or_ge j t1.length with hj1 | hj1
    · exfalso
      rw [List.getElem_append_left hj1] at hQ
      rw [h1 _ (List.getElem_mem hj1)] at hQ
      exact Bool.noConfusion hQ
    · exact Nat.lt_of_lt_of_le hi1 hj1
  · exfalso
    have hmem : (t1 ++ t2)[i] ∈ t2 := by
      rw [List.getElem_append_right hi1]
      exact List.getElem_mem _
    rw [h2 _ hmem] at hP
    exact Bool.noConfusion hP

/-- C3 counterexample: "no change notification is sent before the new
snapshot is persisted" is false on the code: with roster ["x"], previous
{x:3}, the marker present and the fetch returning 200 with 5 friends, the
run trace is [checkMarker, loadState, fetchAcct x, sendChange x, saveState,
logChanges] — the change notification (index 3) precedes save_counts
(index 4). -/
theorem C3_counterexample :
    ¬ (∀ (roster : List String) (api : String → FetchOutcome)
        (previous : List (String × Nat)) (markerExists : Bool),
        allBefore effIsSave effIsSendChange
          (check_accounts_trace roster api previous markerExists)) := by
  intro h
  have h2 := h ["x"] (fun _ => FetchOutcome.ok 5) [("x", 3)] true 4 3
    (by decide) (by decide) (by decide) (by decide)
  exact absurd h2 (by decide)

/-- C3 amended: the run's effects happen in the order: marker check, state
load, all fetches, then the change notifications (sent while diffing), then
the snapshot persist, then the first-run summary if any.  In particular the
load precedes every fetch, every fetch precedes every change notification,
every change notification precedes the persist — the notifications are sent
BEFORE the snapshot is persisted, not after — and the persist precedes the
first-run summary message. -/
theorem C3_amended_effect_order (roster : List String)
    (api : String → FetchOutcome) (previous : List (String × Nat))
    (markerExists : Bool) :
    allBefore effIsLoad effIsFetch
        (check_accounts_trace roster api previous markerExists)
    ∧ allBefore effIsFetch effIsSendChange
        (check_accounts_trace roster api previous markerExists)
    ∧ allBefore effIsSendChange effIsSave
        (check_accounts_trace roster api previous markerExists)
    ∧ allBefore effIsSave effIsSummary
        (check_accounts_trace roster api previous markerExists) := by
  simp only [check_accounts_trace]
  have hM : ∀ e ∈ (if markerExists then [Eff.checkMarker]
      else [Eff.checkMarker, Eff.writeMarker]),
      effIsFetch e = false ∧ effIsSendChange e = false
        ∧ effIsSave e = false ∧ effIsSummary e = false := by
    intro e he
    split at he <;> simp only [List.mem_singleton, List.mem_cons,
      List.not_mem_nil, or_false] at he
    · subst he
      exact ⟨rfl, rfl, rfl, rfl⟩
    · rcases he with rfl | rfl
      · exact ⟨rfl, rfl, rfl, rfl⟩
      · exact ⟨rfl, rfl, rfl, rfl⟩
  have hF : ∀ e ∈ roster.map Eff.fetchAcct,
      effIsLoad e = false ∧ effIsSendChange e = false
        ∧ effIsSave e = false ∧ effIsSummary e = false := by
    intro e he
    rcases List.mem_map.mp he with ⟨id, _, rfl⟩
    exact ⟨rfl, rfl, rfl, rfl⟩
  have hS : ∀ e ∈ (check_accounts roster api previous
        (is_first_run markerExists).1).changes.map
          (fun ev => Eff.sendChange ev.accountId),
      effIsLoad e = false ∧ effIsFetch e = false
        ∧ effIsSave e = false ∧ effIsSummary e = false := by
    intro e he
    rcases List.mem_map.mp he with ⟨ev, _, rfl⟩
    exact ⟨rfl, rfl, rfl, rfl⟩
  have hT : ∀ e ∈ (if (is_first_run markerExists).1 then
        Eff.sendSummary :: (if totalAccounts roster (check_accounts roster api
            previous (is_first_run markerExists).1).current ≤ 50
          then [Eff.sendDetails] else [])
      else if (check_accounts roster api previous
          (is_first_run markerExists).1).changes.isEmpty
        then [Eff.logNoChanges] else [Eff.logChanges]),
      effIsLoad e = false ∧ effIsFetch e = false
        ∧ effIsSendChange e = false ∧ effIsSave e = false := by
    intro e he
    split at he
    · rcases List.mem_cons.mp he with rfl | he2
      · exact ⟨rfl, rfl, rfl, rfl⟩
      · split at he2
        · rcases List.mem_singleton.mp he2 with rfl
          exact ⟨rfl, rfl, rfl, rfl⟩
        · exact absurd he2 (List.not_mem_nil e)
    · split at he
      · rcases List.mem_singleton.mp he with rfl
        exact ⟨rfl, rfl, rfl, rfl⟩
      · rcases List.mem_singleton.mp he with rfl
        exact ⟨rfl, rfl, rfl, rfl⟩
  have hLoad1 : ∀ e ∈ [Eff.loadState], effIsFetch e = false := by
    intro e he
    rcases List.mem_singleton.mp he with rfl
    rfl
  have hLoad2 : ∀ e ∈ [Eff.loadState], effIsSendChange e = false := by
    intro e he
    rcases List.mem_singleton.mp he with rfl
    rfl
  have hLoad3 : ∀ e ∈ [Eff.loadState], effIsSave e = false := by
    intro e he
    rcases List.mem_singleton.mp he with rfl
    rfl
  have hLoad4 : ∀ e ∈ [Eff.loadState], effIsSummary e = false := by
    intro e he
    rcases List.mem_singleton.mp he with rfl
    rfl
  have hSave1 : ∀ e ∈ [Eff.saveState], effIsLoad e = false := by
    intro e he
    rcases List.mem_singleton.mp he with rfl
    rfl
  have hSave2 : ∀ e ∈ [Eff.saveState], effIsFetch e = false := by
    intro e he
    rcases List.mem_singleton.mp he with rfl
    rfl
  have hSave3 : ∀ e ∈ [Eff.saveState], effIsSendChange e = false := by
    intro e he
    rcases List.mem_singleton.mp he with rfl
    rfl
  have hSave4 : ∀ e ∈ [Eff.saveState], effIsSummary e = false := by
    intro e he
    rcases List.mem_singleton.mp he with rfl
    rfl
  refine ⟨?_, ?_, ?_, ?_⟩
  · rw [List.append_assoc, List.append_assoc, List.append_assoc]
    apply allBefore_append
    · exact forall_mem_append (fun e he => (hF e he).1)
        (forall_mem_append (fun e he => (hS e he).1)
          (forall_mem_append hSave1 (fun e he => (hT e he).1)))
    · exact forall_mem_append (fun e he => (hM e he).1) hLoad1
  · rw [List.append_assoc, List.append_assoc]
    apply allBefore_append
    · exact forall_mem_append (fun e he => (hS e he).2.1)
        (forall_mem_append hSave2 (fun e he => (hT e he).2.1))
    · exact forall_mem_append
        (forall_mem_append (fun e he => (hM e he).2.1) hLoad2)
        (fun e he => (hF e he).2.1)
  · rw [List.append_assoc]
    apply allBefore_append
    · exact forall_mem_append hSave3 (fun e he => (hT e he).2.2.1)
    · exact forall_mem_append
        (forall_mem_append
          (forall_mem_append (fun e he => (hM e he).2.2.1) hLoad3)
          (fun e he => (hF e he).2.2.1))
        (fun e he => (hS e he).2.2.1)
  · apply allBefore_append
    · exact fun e he => (hT e he).2.2.2
    · exact forall_mem_append
        (forall_mem_append
          (forall_mem_append
            (forall_mem_append (fun e he => (hM e he).2.2.2) hLoad4)
            (fun e he => (hF e he).2.2.2))
          (fun e he => (hS e he).2.2.2))
        hSave4

theorem dropWhile_length_le {α : Type _} (p : α → Bool) (l : List α) :
    (List.dropWhile p l).length ≤ l.length := by
  induction l with
  | nil => simp
  | cons a t ih =>
    rw [List.dropWhile_cons]
    split
    · exact Nat.le_succ_of_le ih
    · exact Nat.le_refl _

theorem pyStrip_length_le (s : List Char) : (pyStrip s).length ≤ s.length := by
  unfold pyStrip
  rw [List.length_reverse]
  calc (List.dropWhile isPySpace (List.dropWhile isPySpace s).reverse).length
      ≤ (List.dropWhile isPySpace s).reverse.length := dropWhile_length_le _ _
    _ = (List.dropWhile isPySpace s).length := List.length_reverse _
    _ ≤ s.length := dropWhile_length_le _ _

theorem splitLines_ne_nil (s : List Char) : splitLines s ≠ [] := by
  cases s with
  | nil => simp [splitLines]
  | cons c rest =>
    simp only [splitLines]
    split
    · simp
    · split <;> simp

theorem joinLines_cons (l l2 : List Char) (ls : List (List Char)) :
    joinLines (l :: l2 :: ls) = l ++ '\n' :: joinLines (l2 :: ls) := rfl

theorem joinLines_splitLines (s : List Char) : joinLines (splitLines s) = s := by
  induction s with
  | nil => rfl
  | cons c rest ih =>
    obtain ⟨l, ls, hs⟩ : ∃ l ls, splitLines rest = l :: ls := by
      cases hs : splitLines rest with
      | nil => exact absurd hs (splitLines_ne_nil rest)
      | cons a b => exact ⟨a, b, rfl⟩
    by_cases hc : c = '\n'
    · subst hc
      rw [show splitLines ('\n' :: rest) = [] :: splitLines rest by
        simp [splitLines]]
      rw [hs, joinLines_cons, ← hs, ih]
      rfl
    · rw [show splitLines (c :: rest) = (c :: l) :: ls by
        simp [splitLines, hc, hs]]
      cases ls with
      | nil =>
        rw [hs] at ih
        have h2 : l = rest := ih
        rw [show joinLines [c :: l] = c :: l from rfl, h2]
      | cons l2 ls2 =>
        rw [joinLines_cons, List.cons_append, ← joinLines_cons, ← hs, ih]

theorem joinLines_append (xs ys : List (List Char)) (hxs : xs ≠ [])
    (hys : ys ≠ []) :
    joinLines (xs ++ ys) = joinLines xs ++ '\n' :: joinLines ys := by
  induction xs with
  | nil => exact absurd rfl hxs
  | cons x rest ih =>
    cases rest with
    | nil =>
      obtain ⟨y, ys2, rfl⟩ : ∃ y ys2, ys = y :: ys2 := by
        cases ys with
        | nil => exact absurd rfl hys
        | cons a b => exact ⟨a, b, rfl⟩
      rfl
    | cons x2 rest2 =>
      show joinLines (x :: ((x2 :: rest2) ++ ys)) = _
      have h1 : (x2 :: rest2) ++ ys = x2 :: (rest2 ++ ys) := rfl
      rw [h1, joinLines_cons, ← h1, ih (by simp), joinLines_cons]
      simp [List.append_assoc]

theorem joinLines_concat (xs : List (List Char)) (y : List Char)
    (hxs : xs ≠ []) :
    joinLines (xs ++ [y]) = joinLines xs ++ '\n' :: y := by
  rw [joinLines_append xs [y] hxs (by simp)]
  rfl

theorem goodLine_spec {L : Nat} {l : List Char} (h : goodLine L l = true) :
    l.length + 1 ≤ L
    ∧ (∃ a t, l = a :: t ∧ isPySpace a = false)
    ∧ (∃ b, l.getLast? = some b ∧ isPySpace b = false) := by
  unfold goodLine at h
  simp only [Bool.and_eq_true, decide_eq_true_eq] at h
  obtain ⟨⟨h1, h2⟩, h3⟩ := h
  refine ⟨h1, ?_, ?_⟩
  · cases l with
    | nil => simp at h2
    | cons a t =>
      refine ⟨a, t, rfl, ?_⟩
      have h2b : (!isPySpace a) = true := h2
      cases hws : isPySpace a
      · rfl
      · rw [hws] at h2b
        exact absurd h2b (by decide)
  · cases hlast : l.getLast? with
    | none =>
      rw [hlast] at h3
      have h3b : false = true := h3
      exact Bool.noConfusion h3b
    | some b =>
      rw [hlast] at h3
      have h3b : (!isPySpace b) = true := h3
      refine ⟨b, rfl, ?_⟩
      cases hws : isPySpace b
      · rfl
      · rw [hws] at h3b
        exact absurd h3b (by decide)

theorem joinLines_cons_head (a : Char) (t : List Char)
    (rest : List (List Char)) :
    ∃ u, joinLines ((a :: t) :: rest) = a :: u := by
  cases rest with
  | nil => exact ⟨t, rfl⟩
  | cons r rs => exact ⟨t ++ '\n' :: joinLines (r :: rs), rfl⟩

theorem joinLines_reverse_head (L : Nat) (grp : List (List Char))
    (hgrp : grp ≠ []) (hg : ∀ l ∈ grp, goodLine L l = true) :
    ∃ b u, (joinLines grp).reverse = b :: u ∧ isPySpace b = false := by
  induction grp with
  | nil => exact absurd rfl hgrp
  | cons x rest ih =>
    cases rest with
    | nil =>
      have hx := goodLine_spec (hg x (List.mem_cons_self _ _))
      obtain ⟨b, hlast, hwb⟩ := hx.2.2
      have hhead : x.reverse.head? = some b := by
        rw [List.head?_reverse, hlast]
      obtain ⟨u, hu⟩ : ∃ u, x.reverse = b :: u := by
        cases hr : x.reverse with
        | nil => rw [hr] at hhead; exact Option.noConfusion hhead
        | cons ch cs =>
          rw [hr] at hhead
          have : ch = b := by
            have h2 : some ch = some b := hhead
            injection h2
          exact ⟨cs, by rw [this]⟩
      exact ⟨b, u, by rw [show joinLines [x] = x from rfl]; exact hu, hwb⟩
    | cons y ys =>
      obtain ⟨b, u, hbu, hwb⟩ := ih (by simp)
        (fun l hl => hg l (List.mem_cons_of_mem x hl))
      refine ⟨b, u ++ ['\n'] ++ x.reverse, ?_, hwb⟩
      rw [joinLines_cons, List.reverse_append, List.reverse_cons, hbu]
      simp [List.append_assoc]

theorem pyStrip_join_chunk (L : Nat) (grp : List (List Char)) (hgrp : grp ≠ [])
    (hg : ∀ l ∈ grp, goodLine L l = true) :
    pyStrip (joinLines grp ++ ['\n']) = joinLines grp := by
  obtain ⟨g0, rest, rfl⟩ : ∃ g0 rest, grp = g0 :: rest := by
    cases grp with
    | nil => exact absurd rfl hgrp
    | cons a b => exact ⟨a, b, rfl⟩
  have hx := goodLine_spec (hg g0 (List.mem_cons_self _ _))
  obtain ⟨a, t, rfl, hwa⟩ := hx.2.1
  obtain ⟨u, hu⟩ := joinLines_cons_head a t rest
  unfold pyStrip
  have hfront : List.dropWhile isPySpace (joinLines ((a :: t) :: rest) ++ ['\n'])
      = joinLines ((a :: t) :: rest) ++ ['\n'] := by
    rw [hu, List.cons_append, List.dropWhile_cons, hwa]
    simp
  rw [hfront]
  have hrev : (joinLines ((a :: t) :: rest) ++ ['\n']).reverse
      = '\n' :: (joinLines ((a :: t) :: rest)).reverse := by
    rw [List.reverse_append]
    rfl
  rw [hrev, List.dropWhile_cons, show isPySpace '\n' = true from rfl]
  simp only [if_true]
  obtain ⟨b, u2, hbu, hwb⟩ := joinLines_reverse_head L ((a :: t) :: rest)
    (by simp) hg
  rw [hbu, List.dropWhile_cons, hwb]
  simp only [Bool.false_eq_true, if_false]
  rw [← hbu, List.reverse_reverse]

theorem chunkFold_sent (L : Nat) (lines : List (List Char))
    (sent : List (List Char)) (cur : List Char) :
    lines.foldl (chunkStep L) (sent, cur)
      = (sent ++ (lines.foldl (chunkStep L) ([], cur)).1,
         (lines.foldl (chunkStep L) ([], cur)).2) := by
  induction lines generalizing sent cur with
  | nil => simp
  | cons line rest ih =>
    rw [List.foldl_cons, List.foldl_cons]
    by_cases hov : L < cur.length + (line.length + 1)
    · by_cases hemp : cur.isEmpty = true
      · rw [show chunkStep L (sent, cur) line = (sent ++ [line.take L], cur) by
          simp [chunkStep, hov, hemp]]
        rw [show chunkStep L ([], cur) line = ([] ++ [line.take L], cur) by
          simp [chunkStep, hov, hemp]]
        rw [ih (sent ++ [line.take L]) cur, ih ([] ++ [line.take L]) cur]
        simp [List.append_assoc]
      · rw [show chunkStep L (sent, cur) line
            = (sent ++ [pyStrip cur], line ++ ['\n']) by
          simp [chunkStep, hov, hemp]]
        rw [show chunkStep L ([], cur) line
            = ([] ++ [pyStrip cur], line ++ ['\n']) by
          simp [chunkStep, hov, hemp]]
        rw [ih (sent ++ [pyStrip cur]) (line ++ ['\n']),
          ih ([] ++ [pyStrip cur]) (line ++ ['\n'])]
        simp [List.append_assoc]
    · rw [show chunkStep L (sent, cur) line = (sent, cur ++ line ++ ['\n']) by
        simp [chunkStep, hov]]
      rw [show chunkStep L ([], cur) line = ([], cur ++ line ++ ['\n']) by
        simp [chunkStep, hov]]
      exact ih sent (cur ++ line ++ ['\n'])

theorem chunkFold_cur_ne_nil (L : Nat) (lines : List (List Char))
    (sent : List (List Char)) (cur : List Char) (h : cur ≠ []) :
    (lines.foldl (chunkStep L) (sent, cur)).2 ≠ [] := by
  induction lines generalizing sent cur with
  | nil => exact h
  | cons line rest ih =>
    rw [List.foldl_cons]
    by_cases hov : L < cur.length + (line.length + 1)
    · have hemp : cur.isEmpty = false := by
        cases cur
        · exact absurd rfl h
        · rfl
      rw [show chunkStep L (sent, cur) line
          = (sent ++ [pyStrip cur], line ++ ['\n']) by
        simp [chunkStep, hov, hemp]]
      exact ih _ _ (by simp)
    · rw [show chunkStep L (sent, cur) line = (sent, cur ++ line ++ ['\n']) by
        simp [chunkStep, hov]]
      exact ih _ _ (by simp)

theorem flushChunks_append (x S : List (List Char)) (c : List Char) :
    flushChunks (x ++ S, c) = x ++ flushChunks (S, c) := by
  by_cases hc : c.isEmpty = true <;> simp [flushChunks, hc, List.append_assoc]

theorem flushChunks_ne_nil (st : List (List Char) × List Char)
    (h : st.2 ≠ []) : flushChunks st ≠ [] := by
  unfold flushChunks
  have h2 : st.2.isEmpty = false := by
    cases hst : st.2
    · exact absurd hst h
    · rfl
  rw [h2]
  simp

theorem chunkFold_bound (L : Nat) (lines : List (List Char))
    (sent : List (List Char)) (cur : List Char)
    (hsent : ∀ ch ∈ sent, ch.length ≤ L) (hcur : cur.length ≤ L)
    (hlines : ∀ l ∈ lines, l.length + 1 ≤ L) :
    ∀ ch ∈ flushChunks (lines.foldl (chunkStep L) (sent, cur)),
      ch.length ≤ L := by
  induction lines generalizing sent cur with
  | nil =>
    intro ch hch
    unfold flushChunks at hch
    split at hch
    · exact hsent ch hch
    · rcases List.mem_append.mp hch with h | h
      · exact hsent ch h
      · rcases List.mem_singleton.mp h with rfl
        exact le_trans (pyStrip_length_le cur) hcur
  | cons line rest ih =>
    intro ch hch
    rw [List.foldl_cons] at hch
    have hline := hlines line (List.mem_cons_self _ _)
    have hrest : ∀ l ∈ rest, l.length + 1 ≤ L :=
      fun l hl => hlines l (List.mem_cons_of_mem _ hl)
    by_cases hov : L < cur.length + (line.length + 1)
    · by_cases hemp : cur.isEmpty = true
      · rw [show chunkStep L (sent, cur) line = (sent ++ [line.take L], cur) by
          simp [chunkStep, hov, hemp]] at hch
        refine ih (sent ++ [line.take L]) cur ?_ hcur hrest ch hch
        intro c2 hc2
        rcases List.mem_append.mp hc2 with h | h
        · exact hsent c2 h
        · rcases List.mem_singleton.mp h with rfl
          rw [List.length_take]
          exact min_le_left _ _
      · rw [show chunkStep L (sent, cur) line
            = (sent ++ [pyStrip cur], line ++ ['\n']) by
          simp [chunkStep, hov, hemp]] at hch
        refine ih (sent ++ [pyStrip cur]) (line ++ ['\n']) ?_ ?_ hrest ch hch
        · intro c2 hc2
          rcases List.mem_append.mp hc2 with h | h
          · exact hsent c2 h
          · rcases List.mem_singleton.mp h with rfl
            exact le_trans (pyStrip_length_le cur) hcur
        · rw [List.length_append]
          simpa using hline
    · rw [show chunkStep L (sent, cur) line = (sent, cur ++ line ++ ['\n']) by
        simp [chunkStep, hov]] at hch
      refine ih sent (cur ++ line ++ ['\n']) hsent ?_ hrest ch hch
      have h2 := Nat.not_lt.mp hov
      simp only [List.length_append, List.length_cons, List.length_nil]
      omega

theorem chunkStep_eq_flush (L : Nat) (sent : List (List Char))
    (cur line : List Char) (hov : L < cur.length + (line.length + 1))
    (hemp : cur.isEmpty = false) :
    chunkStep L (sent, cur) line = (sent ++ [pyStrip cur], line ++ ['\n']) := by
  unfold chunkStep
  rw [if_pos hov, hemp]
  simp

theorem chunkStep_eq_truncate (L : Nat) (sent : List (List Char))
    (cur line : List Char) (hov : L < cur.length + (line.length + 1))
    (hemp : cur.isEmpty = true) :
    chunkStep L (sent, cur) line = (sent ++ [line.take L], cur) := by
  unfold chunkStep
  rw [if_pos hov, hemp]
  simp

theorem chunkStep_eq_pack (L : Nat) (sent : List (List Char))
    (cur line : List Char) (hov : ¬ L < cur.length + (line.length + 1)) :
    chunkStep L (sent, cur) line = (sent, cur ++ line ++ ['\n']) := by
  unfold chunkStep
  rw [if_neg hov]

theorem chunkFold_join (L : Nat) (lines : List (List Char)) :
    ∀ (grp : List (List Char)), grp ≠ [] →
      (∀ l ∈ grp, goodLine L l = true) →
      (∀ l ∈ lines, goodLine L l = true) →
      (joinLines grp).length + 1 ≤ L →
      joinLines (flushChunks (lines.foldl (chunkStep L)
          ([], joinLines grp ++ ['\n'])))
        = joinLines (grp ++ lines) := by
  induction lines with
  | nil =>
    intro grp hgrp hg _ _
    rw [List.foldl_nil]
    rw [show flushChunks ([], joinLines grp ++ ['\n'])
        = [pyStrip (joinLines grp ++ ['\n'])] by
      simp [flushChunks]]
    rw [pyStrip_join_chunk L grp hgrp hg, List.append_nil]
    rfl
  | cons line rest ih =>
    intro grp hgrp hg hlines hfit
    rw [List.foldl_cons]
    have hlg := goodLine_spec (hlines line (List.mem_cons_self _ _))
    have hrest : ∀ l ∈ rest, goodLine L l = true :=
      fun l hl => hlines l (List.mem_cons_of_mem _ hl)
    by_cases hov : L < (joinLines grp ++ ['\n']).length + (line.length + 1)
    · have hemp : (joinLines grp ++ ['\n']).isEmpty = false := by
        cases hh : joinLines grp ++ ['\n'] with
        | nil => exact absurd hh (by simp)
        | cons a b => rfl
      rw [chunkStep_eq_flush L [] (joinLines grp ++ ['\n']) line hov hemp]
      rw [List.nil_append]
      rw [pyStrip_join_chunk L grp hgrp hg]
      rw [chunkFold_sent L rest [joinLines grp] (line ++ ['\n'])]
      rw [flushChunks_append]
      rw [Prod.mk.eta]
      have hchne : flushChunks (rest.foldl (chunkStep L) ([], line ++ ['\n']))
          ≠ [] := by
        apply flushChunks_ne_nil
        exact chunkFold_cur_ne_nil L rest [] (line ++ ['\n']) (by simp)
      rw [joinLines_append [joinLines grp] _ (by simp) hchne]
      rw [show line ++ ['\n'] = joinLines [line] ++ ['\n'] from rfl]
      rw [ih [line] (by simp)
        (by intro l hl
            rcases List.mem_singleton.mp hl with rfl
            exact hlines l (List.mem_cons_self _ _))
        hrest
        (by show (joinLines [line]).length + 1 ≤ L
            rw [show joinLines [line] = line from rfl]
            exact hlg.1)]
      rw [joinLines_append grp (line :: rest) hgrp (by simp)]
      rw [show joinLines [joinLines grp] = joinLines grp from rfl]
      rw [List.singleton_append]
    · rw [chunkStep_eq_pack L [] (joinLines grp ++ ['\n']) line hov]
      have hcur2 : (joinLines grp ++ ['\n']) ++ line ++ ['\n']
          = joinLines (grp ++ [line]) ++ ['\n'] := by
        rw [joinLines_concat grp line hgrp]
        simp [List.append_assoc]
      rw [hcur2]
      rw [ih (grp ++ [line]) (by simp)
        (by intro l hl
            rcases List.mem_append.mp hl with h | h
            · exact hg l h
            · rcases List.mem_singleton.mp h with rfl
              exact hlines l (List.mem_cons_self _ _))
        hrest
        (by rw [joinLines_concat grp line hgrp]
            have h2 := Nat.not_lt.mp hov
            simp only [List.length_append, List.length_cons,
              List.length_nil] at h2 ⊢
            omega)]
      rw [List.append_assoc]
      rfl

/-- C2 counterexample: the claim fails on the code: at maxLen 5 and text
"a \nbbbbbbb", the second line (7 chars) overflows while the accumulated
chunk is non-empty, so it is emitted whole as a 7-character chunk (longer
than 5, not truncated), and the strip() applied to the flushed chunk drops
the trailing space of the first line, so rejoining the chunks does not
reproduce the text with over-long lines truncated either. -/
theorem C2_counterexample :
    ¬ (∀ (L : Nat) (msg : List Char),
        (∀ ch ∈ split_message L msg, ch.length ≤ L)
        ∧ joinLines (split_message L msg)
            = joinLines ((splitLines msg).map (fun l => l.take L))) := by
  intro h
  exact absurd (h 5 ['a', ' ', '\n', 'b', 'b', 'b', 'b', 'b', 'b', 'b'])
    (by decide)

/-- C2 amended: for any text and max length L, provided every line fits a
chunk losslessly — length at most L-1 and no leading/trailing whitespace
for strip() to eat — every produced chunk has length at most L, and joining
the chunks with single line breaks reconstructs the original text.  (Without
those provisos the code can emit a chunk longer than L: an over-long line is
truncated to L only when it arrives while the accumulated chunk is empty,
and is sent whole otherwise; and strip() can drop whitespace at chunk
boundaries.) -/
theorem C2_chunking_amended (L : Nat) (msg : List Char)
    (h : ∀ l ∈ splitLines msg, goodLine L l = true) :
    (∀ ch ∈ split_message L msg, ch.length ≤ L)
    ∧ joinLines (split_message L msg) = msg := by
  unfold split_message
  by_cases hlen : msg.length ≤ L
  · rw [if_pos hlen]
    refine ⟨?_, rfl⟩
    intro ch hch
    rcases List.mem_singleton.mp hch with rfl
    exact hlen
  · rw [if_neg hlen]
    obtain ⟨l0, rest, hsplit⟩ : ∃ l0 rest, splitLines msg = l0 :: rest := by
      cases hs : splitLines msg with
      | nil => exact absurd hs (splitLines_ne_nil msg)
      | cons a b => exact ⟨a, b, rfl⟩
    have hgood : ∀ l ∈ l0 :: rest, goodLine L l = true := by
      rw [← hsplit]
      exact h
    have hl0 := goodLine_spec (hgood l0 (List.mem_cons_self _ _))
    have hrest : ∀ l ∈ rest, goodLine L l = true :=
      fun l hl => hgood l (List.mem_cons_of_mem _ hl)
    rw [hsplit, List.foldl_cons]
    have hov : ¬ L < List.length ([] : List Char) + (l0.length + 1) := by
      simp only [List.length_nil, Nat.zero_add]
      exact Nat.not_lt.mpr hl0.1
    rw [chunkStep_eq_pack L [] [] l0 hov, List.nil_append]
    constructor
    · apply chunkFold_bound L rest [] (l0 ++ ['\n'])
      · intro ch hch
        exact absurd hch (List.not_mem_nil ch)
      · rw [List.length_append]
        simpa using hl0.1
      · intro l hl
        exact (goodLine_spec (hrest l hl)).1
    · rw [show l0 ++ ['\n'] = joinLines [l0] ++ ['\n'] from rfl]
      rw [chunkFold_join L rest [l0] (by simp)
        (by intro l hl
            rcases List.mem_singleton.mp hl with rfl
            exact hgood l (List.mem_cons_self _ _))
        hrest
        (by rw [show joinLines [l0] = l0 from rfl]
            exact hl0.1)]
      rw [List.singleton_append, ← hsplit, joinLines_splitLines]

/-- C2 amended witness: maxLen 3 and the text "ab\ncd" (length 5 > 3): both
lines are good for L = 3, the chunker sends ["ab", "cd"], each within 3
characters, and they rejoin to the original text. -/
theorem C2_chunking_amended_witness :
    (∀ l ∈ splitLines ['a', 'b', '\n', 'c', 'd'], goodLine 3 l = true)
    ∧ ((∀ ch ∈ split_message 3 ['a', 'b', '\n', 'c', 'd'], ch.length ≤ 3)
      ∧ joinLines (split_message 3 ['a', 'b', '\n', 'c', 'd'])
          = ['a', 'b', '\n', 'c', 'd']) :=
  ⟨by decide, C2_chunking_amended 3 ['a', 'b', '\n', 'c', 'd'] (by decide)⟩
